import Mathlib

/-!
Verification of the spnoiser terminal UI against its specification.

Python strings are modelled as `List Char`, Python `int` as `Int`
(coordinates and sizes can be negative in intermediate computations such
as `height - 2`).  Drawing into the curses surface is modelled as a list
of `Write` records (absolute row, absolute column, written characters)
together with an optional uncaught exception; an exception aborts the
remaining drawing but keeps the writes already performed, matching
Python exception semantics.
-/

/-- Python list/str slicing `s[:n]`: for `n ≥ 0` the first `n` characters,
for negative `n` everything up to `len + n` (clamped at zero). -/
def pyTake (s : List Char) (n : Int) : List Char :=
  if 0 ≤ n then s.take n.toNat else s.take ((s.length : Int) + n).toNat

/-- Python string repetition `s * n` (empty for `n ≤ 0`). -/
def pyReplicate (n : Int) (s : List Char) : List Char :=
  (List.replicate n.toNat s).flatten

/-- Python `range(a, b)` as a list of integers. -/
def intRange (a b : Int) : List Int :=
  (List.range (b - a).toNat).map (fun (i : Nat) => a + (i : Int))

/-- Decimal rendering of a Python integer. -/
def pyIntStr (n : Int) : List Char :=
  if n < 0 then '-' :: Nat.toDigits 10 (-n).toNat else Nat.toDigits 10 n.toNat

/-- Python format `f"{n:02d}"`: zero-pad to at least two characters. -/
def pad2 (n : Int) : List Char :=
  let s := pyIntStr n
  if s.length < 2 then List.replicate (2 - s.length) '0' ++ s else s

/-- Modelled from the spec: `spnoiser.utils.require` is imported by the
sources but `utils.py` is not part of the provided tree.  Per the spec's
error taxonomy, a failed requirement raises a contract-violation error
(`BoundsError` / `InvalidArgument`) carrying the message; a satisfied
requirement is a no-op. -/
def require (cond : Bool) (msg : String) : Except String Unit :=
  if cond then Except.ok () else Except.error msg

/-- `Vector2D` from `spnoiser.ui.core`: an ordered `(y, x)` pair. -/
structure Vector2D where
  y : Int
  x : Int
deriving DecidableEq, Repr

/-- `Rect` from `spnoiser.ui.core`: an offset and a size, both defaulting
to `(0, 0)` as in the Python dataclass. -/
structure Rect where
  offset : Vector2D := ⟨0, 0⟩
  size : Vector2D := ⟨0, 0⟩
deriving DecidableEq, Repr

/-- `Rect.from_dimensions(y, x, height, width)`. -/
def Rect.from_dimensions (y x height width : Int) : Rect :=
  ⟨⟨y, x⟩, ⟨height, width⟩⟩

/-- One `addstr` call performed on the curses surface: absolute row,
absolute column, and the characters written. -/
structure Write where
  y : Int
  x : Int
  s : List Char
deriving DecidableEq, Repr

/-- Outcome of running a `draw` body: the writes it performed, and the
uncaught exception (if any) that aborted it. -/
structure DrawResult where
  writes : List Write
  err : Option String
deriving DecidableEq, Repr

/-- Sequential composition of draw steps: a step whose exception escapes
aborts the remaining steps, but its own completed writes persist. -/
def seqDraws : List DrawResult → DrawResult
  | [] => ⟨[], none⟩
  | r :: rs =>
    match r.err with
    | some e => ⟨r.writes, some e⟩
    | none =>
      let rest := seqDraws rs
      ⟨r.writes ++ rest.writes, rest.err⟩

/-- `ScreenElement._abs_coords` from `spnoiser.ui.core`: bounds-check the
local coordinates against the element's size, then translate by the
element's offset. -/
def abs_coords (area : Rect) (y x : Int) : Except String Vector2D :=
  match require (decide (0 ≤ y ∧ y < area.size.y)) "y is out of bounds" with
  | Except.error e => Except.error e
  | Except.ok _ =>
    match require (decide (0 ≤ x ∧ x < area.size.x)) "x is out of bounds" with
    | Except.error e => Except.error e
    | Except.ok _ => Except.ok ⟨area.offset.y + y, area.offset.x + x⟩

/-- `ScreenElement._draw_str` from `spnoiser.ui.core`: translate the local
position (a failed bounds check escapes, since only curses errors are
caught there) and write the text truncated to the element's full width
`string[:width]`. -/
def draw_str (area : Rect) (y x : Int) (s : List Char) : DrawResult :=
  match abs_coords area y x with
  | Except.error e => ⟨[], some e⟩
  | Except.ok pos => ⟨[⟨pos.y, pos.x, pyTake s area.size.x⟩], none⟩

/-- `ScreenElement._inner_area`: translate the relative offset by the
element's own offset and clamp the size componentwise to the element's
own size. -/
def inner_area (self area : Rect) : Rect :=
  ⟨⟨self.offset.y + area.offset.y, self.offset.x + area.offset.x⟩,
   ⟨min self.size.y area.size.y, min self.size.x area.size.x⟩⟩

/-- The absolute area `ScreenElement._draw_sub_in` hands to the child it
constructs: the element's own area when no relative area is given,
otherwise `inner_area`. -/
def draw_sub_in_target (self : Rect) (relative_area : Option Rect) : Rect :=
  match relative_area with
  | none => self
  | some r => inner_area self r

/-- `NoisingExpanded._token`: four spaces followed by the noise text. -/
def expandedToken (noise : List Char) : List Char :=
  ' ' :: ' ' :: ' ' :: ' ' :: noise

/-- `NoisingCompressed._token`: the noise text followed by one space. -/
def compressedToken (noise : List Char) : List Char :=
  noise ++ [' ']

/-- `NoisingExpanded.token_exceeds_width()`. -/
def NoisingExpanded.token_exceeds_width : Int := 4

/-- `NoisingCompressed.token_exceeds_width()`. -/
def NoisingCompressed.token_exceeds_width : Int := 1

/-- The single line built by `Noising.draw`: a space fill when the token
is empty, otherwise the token repeated `width // len` (plus one when the
division is uneven) times, truncated to `width` in the uneven case. -/
def Noising.line (token : List Char) (width : Int) : List Char :=
  if token.length = 0 then
    List.replicate width.toNat ' '
  else
    let len_token : Int := (token.length : Int)
    let ratio := Int.fdiv width len_token
    let repeats := if Int.fmod width len_token = 0 then ratio else ratio + 1
    let line_repeated := pyReplicate repeats token
    if Int.fmod width len_token = 0 then line_repeated
    else pyTake line_repeated width

/-- `Noising.draw`: write the built line at column 0 of every row
`0 ≤ y < height` of the element's area. -/
def Noising.draw (area : Rect) (token : List Char) : DrawResult :=
  let line := Noising.line token area.size.x
  seqDraws ((intRange 0 area.size.y).map (fun y => draw_str area y 0 line))

/-- `BorderBox.draw`: the `+`/`-`/`|` frame plus the inner content
callback; the whole body is wrapped in a bare `except` so no exception
escapes, and the interior callback only runs when the inner area is
strictly positive in both dimensions. -/
def BorderBox.draw (area : Rect) (content : Rect → DrawResult) : DrawResult :=
  let height := area.size.y
  let width := area.size.x
  let horizon_border : List Char :=
    if 2 ≤ width then '+' :: List.replicate (max 0 (width - 2)).toNat '-' ++ ['+']
    else ['+']
  let vector_border : List Char := ['|']
  let inner_height := height - 2
  let inner_width := width - 2
  let body : List DrawResult :=
    [draw_str area 0 0 horizon_border]
    ++ ((intRange 1 (height - 1)).map (fun y =>
          [draw_str area y 0 vector_border,
           draw_str area y (width - 1) vector_border])).flatten
    ++ [draw_str area (height - 1) 0 horizon_border]
    ++ (if 0 < inner_height ∧ 0 < inner_width then
          [content (inner_area area (Rect.from_dimensions 1 1 inner_height inner_width))]
        else [])
  let r := seqDraws body
  ⟨r.writes, none⟩

def SECONDS_DAY : Int := 86400

def SECONDS_HOUR : Int := 3600

def SECONDS_MINUTE : Int := 60

/-- `RemainingTime.__format_time`. -/
def format_time (seconds : Int) : List Char :=
  if SECONDS_DAY < seconds then
    let days := Int.fdiv seconds SECONDS_DAY
    let rest := Int.fmod seconds SECONDS_DAY
    let hh := Int.fdiv rest SECONDS_HOUR
    let mm := Int.fdiv (Int.fmod rest SECONDS_HOUR) SECONDS_MINUTE
    pyIntStr days ++ " days and ".data ++ pad2 hh ++ [':'] ++ pad2 mm
  else if 60 < seconds then
    let hh := Int.fdiv seconds SECONDS_HOUR
    let mm := Int.fdiv (Int.fmod seconds SECONDS_HOUR) SECONDS_MINUTE
    pad2 hh ++ [':'] ++ pad2 mm
  else
    pyIntStr seconds ++ ['s']

/-- `RemainingTime.__init__`: the `require` on strictly positive
remaining seconds, yielding the stored value on success. -/
def RemainingTime.init (remaining_seconds : Int) : Except String Int :=
  match require (decide (0 < remaining_seconds))
      "Remaining seconds must be greater than zero" with
  | Except.error e => Except.error e
  | Except.ok _ => Except.ok remaining_seconds

/-- `RemainingTime.draw`: the label on the second-to-last row. -/
def RemainingTime.draw (area : Rect) (rem_sec : Int) : DrawResult :=
  draw_str area (area.size.y - 2) 0
    ("Noising time remaining: ".data ++ format_time rem_sec)

/-- Construct a `RemainingTime` and draw it, as `_draw_sub` does: a
constructor failure escapes before anything is written. -/
def RemainingTime.run (area : Rect) (remaining_seconds : Int) : DrawResult :=
  match RemainingTime.init remaining_seconds with
  | Except.error e => ⟨[], some e⟩
  | Except.ok s => RemainingTime.draw area s

/-- `ExitHint.draw`: the hint on the last row. -/
def ExitHint.draw (area : Rect) : DrawResult :=
  draw_str area (area.size.y - 1) 0 "Press ESC to stop".data

/-- One child delegation issued by `Monitor.draw`: the content band
(with its border and filler-variant decisions), the remaining-time
label, or the exit hint, each with the absolute area handed to the
child. -/
inductive SubCall where
  | contentBand (target : Rect) (bordered : Bool) (expanded : Bool)
  | remainingTime (target : Rect) (s : Int)
  | exitHint (target : Rect)
deriving DecidableEq, Repr

/-- The delegations `Monitor.draw` performs, in order, with the layout
decisions of its three independent height gates. -/
def Monitor.subcalls (area : Rect) (noise : List Char) (rem_sec : Option Int) :
    List SubCall :=
  let height := area.size.y
  let width := area.size.x
  (if 3 ≤ height then
    let draw_border := decide (5 ≤ height)
    let width_threshold := (noise.length : Int) + NoisingExpanded.token_exceeds_width
      + (if draw_border then 2 else 0)
    let expanded := decide (width_threshold ≤ width)
    let noising_area : Rect := ⟨⟨0, 0⟩, ⟨height - 2, width⟩⟩
    [SubCall.contentBand (inner_area area noising_area) draw_border expanded]
  else [])
  ++ (if 2 ≤ height then
        match rem_sec with
        | some s => [SubCall.remainingTime area s]
        | none => []
      else [])
  ++ (if 1 ≤ height then [SubCall.exitHint area] else [])

/-- Run one of `Monitor.draw`'s delegations.  In the bordered case the
border's content callback is Monitor's lambda, which routes the already
absolute inner area through `_draw_sub_in` (hence `inner_area`) again. -/
def runSubCall (monitor_area : Rect) (noise : List Char) : SubCall → DrawResult
  | SubCall.contentBand target bordered expanded =>
    let tok := if expanded then expandedToken noise else compressedToken noise
    if bordered then
      BorderBox.draw target (fun a => Noising.draw (inner_area monitor_area a) tok)
    else
      Noising.draw target tok
  | SubCall.remainingTime target s => RemainingTime.run target s
  | SubCall.exitHint target => ExitHint.draw target

/-- `Monitor.draw`: run the delegations in order; an escaping exception
aborts the rest. -/
def Monitor.draw (area : Rect) (noise : List Char) (rem_sec : Option Int) :
    DrawResult :=
  seqDraws ((Monitor.subcalls area noise rem_sec).map (runSubCall area noise))

/-- First content-band delegation in a delegation list, with its border
and filler decisions. -/
def contentBandOf : List SubCall → Option (Rect × Bool × Bool)
  | [] => none
  | SubCall.contentBand t b e :: _ => some (t, b, e)
  | _ :: rest => contentBandOf rest

/-- First remaining-time delegation in a delegation list. -/
def remainingTimeOf : List SubCall → Option (Rect × Int)
  | [] => none
  | SubCall.remainingTime t s :: _ => some (t, s)
  | _ :: rest => remainingTimeOf rest

/-- First exit-hint delegation in a delegation list. -/
def exitHintOf : List SubCall → Option Rect
  | [] => none
  | SubCall.exitHint t :: _ => some t
  | _ :: rest => exitHintOf rest

/-- The externally visible actions of one tick of `App._frame`. -/
inductive FrameAction where
  | getmouse
  | erase
  | drawMonitor (noise : List Char) (rem : Option Int)
  | refresh
  | beep
deriving DecidableEq, Repr

/-- `App._frame`: poll result `ch` (`-1` = no event, `27` = ESC,
`key_mouse` = the backend's mouse-event code), the computed remaining
seconds, and the cue state; returns whether the loop continues together
with the actions performed. -/
def App.frame (ch key_mouse : Int) (noise : List Char)
    (remaining_seconds : Option Int) (beep_enabled beep_due : Bool) :
    Bool × List FrameAction :=
  if ch ≠ -1 ∧ ch = 27 then (false, [])
  else if ch ≠ -1 ∧ ch = key_mouse then (true, [FrameAction.getmouse])
  else if (match remaining_seconds with
           | some r => decide (r ≤ 0)
           | none => false) then (false, [])
  else
    (true,
      [FrameAction.erase, FrameAction.drawMonitor noise remaining_seconds,
       FrameAction.refresh]
      ++ if beep_enabled ∧ beep_due then [FrameAction.beep] else [])

lemma int_fdiv_coe (m k : Nat) : Int.fdiv (m : Int) (k : Int) = ((m / k : Nat) : Int) := by
  exact_mod_cast (Int.ofNat_fdiv m k).symm

lemma int_fmod_coe (m k : Nat) : Int.fmod (m : Int) (k : Int) = ((m % k : Nat) : Int) := by
  exact_mod_cast (Int.ofNat_fmod m k).symm

lemma flatten_replicate_length (r : Nat) (t : List Char) :
    (List.replicate r t).flatten.length = r * t.length := by
  induction r with
  | zero => simp
  | succ n ih =>
    simp only [List.replicate_succ, List.flatten_cons, List.length_append, ih, Nat.succ_mul]
    omega

lemma pyReplicate_length (r : Nat) (t : List Char) :
    (pyReplicate (r : Int) t).length = r * t.length := by
  simp [pyReplicate, flatten_replicate_length]

lemma div_succ_mul_ge (n k : Nat) (hk : 0 < k) : n ≤ (n / k + 1) * k := by
  have h1 : k * (n / k) + n % k = n := Nat.div_add_mod n k
  have h2 : n % k < k := Nat.mod_lt n hk
  have h3 : (n / k + 1) * k = k * (n / k) + k := by ring
  rw [h3]
  set p := k * (n / k) with hp
  set m := n % k with hm
  omega

lemma pyTake_of_length_eq (l : List Char) (w : Int) (h : (l.length : Int) = w) :
    pyTake l w = l := by
  subst h
  simp [pyTake]

lemma pyTake_length_le (l : List Char) (n : Nat) (h : n ≤ l.length) :
    (pyTake l (n : Int)).length = n := by
  simp only [pyTake, if_pos (Int.natCast_nonneg n), Int.toNat_natCast, List.length_take]
  omega

lemma mem_intRange {a b y : Int} : y ∈ intRange a b ↔ a ≤ y ∧ y < b := by
  unfold intRange
  rw [List.mem_map]
  constructor
  · rintro ⟨i, hi, hEq⟩
    rw [List.mem_range] at hi
    omega
  · rintro ⟨h1, h2⟩
    refine ⟨(y - a).toNat, ?_, ?_⟩
    · rw [List.mem_range]
      omega
    · beta_reduce
      omega

lemma seqDraws_map_ok {α : Type} (f : α → DrawResult) (g : α → Write) (l : List α)
    (h : ∀ a ∈ l, f a = ⟨[g a], none⟩) :
    seqDraws (l.map f) = ⟨l.map g, none⟩ := by
  induction l with
  | nil => rfl
  | cons a as ih =>
    have ha := h a (List.mem_cons_self a as)
    have hrec := ih (fun b hb => h b (List.mem_cons_of_mem a hb))
    simp [seqDraws, ha, hrec]

lemma seqDraws_writes_nil (l : List DrawResult) (h : ∀ r ∈ l, r.writes = []) :
    (seqDraws l).writes = [] := by
  induction l with
  | nil => rfl
  | cons r rs ih =>
    have hr := h r (List.mem_cons_self r rs)
    have hrec := ih (fun b hb => h b (List.mem_cons_of_mem r hb))
    cases he : r.err with
    | some e => simp [seqDraws, he, hr]
    | none => simp [seqDraws, he, hr, hrec]

lemma draw_str_ok (area : Rect) (y x : Int) (s : List Char)
    (hy1 : 0 ≤ y) (hy2 : y < area.size.y) (hx1 : 0 ≤ x) (hx2 : x < area.size.x) :
    draw_str area y x s =
      ⟨[⟨area.offset.y + y, area.offset.x + x, pyTake s area.size.x⟩], none⟩ := by
  have h1 : decide (0 ≤ y ∧ y < area.size.y) = true := by simp [hy1, hy2]
  have h2 : decide (0 ≤ x ∧ x < area.size.x) = true := by simp [hx1, hx2]
  simp [draw_str, abs_coords, require, h1, h2]

lemma draw_str_zero (area : Rect) (y x : Int) (s : List Char)
    (hz : area.size.y ≤ 0 ∨ area.size.x ≤ 0) :
    (draw_str area y x s).writes = [] ∧ (draw_str area y x s).err ≠ none := by
  unfold draw_str abs_coords require
  by_cases h1 : (0 ≤ y ∧ y < area.size.y)
  · have h2 : ¬(0 ≤ x ∧ x < area.size.x) := by omega
    simp [h1, h2]
  · simp [h1]

lemma token_length_pos (noise tok : List Char)
    (htok : tok = expandedToken noise ∨ tok = compressedToken noise) :
    0 < tok.length := by
  rcases htok with rfl | rfl <;> simp [expandedToken, compressedToken]

lemma noising_line_spec (tok : List Char) (w : Int) (hk : 0 < tok.length) (hw : 1 ≤ w) :
    ((Noising.line tok w).length : Int) = w ∧
    (Int.fmod w (tok.length : Int) = 0 →
      Noising.line tok w = pyReplicate (Int.fdiv w (tok.length : Int)) tok) ∧
    (¬ Int.fmod w (tok.length : Int) = 0 →
      Noising.line tok w =
        pyTake (pyReplicate (Int.fdiv w (tok.length : Int) + 1) tok) w) := by
  obtain ⟨n, rfl⟩ : ∃ n : Nat, w = (n : Int) := ⟨w.toNat, by omega⟩
  have hn : 1 ≤ n := by exact_mod_cast hw
  have hfd : Int.fdiv (n : Int) (tok.length : Int) = ((n / tok.length : Nat) : Int) :=
    int_fdiv_coe n tok.length
  have hfm : Int.fmod (n : Int) (tok.length : Int) = ((n % tok.length : Nat) : Int) :=
    int_fmod_coe n tok.length
  simp only [Noising.line, if_neg (by omega : ¬ tok.length = 0), hfd, hfm]
  by_cases hc : n % tok.length = 0
  · have hz : ((n % tok.length : Nat) : Int) = 0 := by exact_mod_cast hc
    simp only [if_pos hz]
    have hlen : (pyReplicate ((n / tok.length : Nat) : Int) tok).length = n := by
      rw [pyReplicate_length]
      exact Nat.div_mul_cancel (Nat.dvd_of_mod_eq_zero hc)
    exact ⟨by exact_mod_cast hlen, fun _ => trivial, fun hcon => absurd hz hcon⟩
  · have hz : ¬ ((n % tok.length : Nat) : Int) = 0 := by exact_mod_cast hc
    simp only [if_neg hz]
    have hcast : ((n / tok.length : Nat) : Int) + 1 = ((n / tok.length + 1 : Nat) : Int) := by
      push_cast
      ring
    rw [hcast]
    have hge : n ≤ (n / tok.length + 1) * tok.length := div_succ_mul_ge n tok.length hk
    have hlen : (pyTake (pyReplicate ((n / tok.length + 1 : Nat) : Int) tok) (n : Int)).length = n := by
      apply pyTake_length_le
      rw [pyReplicate_length]
      exact hge
    exact ⟨by exact_mod_cast hlen, fun hcon => absurd hcon hz, fun _ => trivial⟩

/-- C1: for every noise string, any target width `w ≥ 1`, and either
filler variant's token (four spaces + noise for expanded, noise + one
space for compressed), `Noising.draw` builds one line equal to the token
repeated `r` times, with `r = w / tokenLen` when `tokenLen` divides `w`
evenly and `w / tokenLen + 1` otherwise, truncated to `w` only in the
uneven case; the line has length exactly `w` and is written identically
into every row `0 ≤ y < height` of the filler's area, with no error. -/
theorem noising_fill_line (noise : List Char) (area : Rect) (tok : List Char)
    (hw : 1 ≤ area.size.x)
    (htok : tok = expandedToken noise ∨ tok = compressedToken noise) :
    ((Noising.line tok area.size.x).length : Int) = area.size.x ∧
    Noising.line tok area.size.x =
      pyTake (pyReplicate
        (if Int.fmod area.size.x (tok.length : Int) = 0
         then Int.fdiv area.size.x (tok.length : Int)
         else Int.fdiv area.size.x (tok.length : Int) + 1) tok) area.size.x ∧
    (Int.fmod area.size.x (tok.length : Int) = 0 →
      Noising.line tok area.size.x =
        pyReplicate (Int.fdiv area.size.x (tok.length : Int)) tok) ∧
    Noising.draw area tok =
      ⟨(intRange 0 area.size.y).map
        (fun y => ⟨area.offset.y + y, area.offset.x,
                   Noising.line tok area.size.x⟩), none⟩ := by
  have hk : 0 < tok.length := token_length_pos noise tok htok
  obtain ⟨hlen, heven, hodd⟩ := noising_line_spec tok area.size.x hk hw
  refine ⟨hlen, ?_, heven, ?_⟩
  · by_cases hc : Int.fmod area.size.x (tok.length : Int) = 0
    · rw [if_pos hc, heven hc]
      have h2 : ((pyReplicate (Int.fdiv area.size.x (tok.length : Int)) tok).length : Int) =
          area.size.x := by
        rw [← heven hc]
        exact hlen
      exact (pyTake_of_length_eq _ _ h2).symm
    · rw [if_neg hc]
      exact hodd hc
  · simp only [Noising.draw]
    apply seqDraws_map_ok
    intro y hy
    rw [mem_intRange] at hy
    rw [draw_str_ok area y 0 _ hy.1 hy.2 (by omega) (by omega)]
    rw [pyTake_of_length_eq _ _ hlen, add_zero]

/-- Witness for C1: the compressed token of "beep" at width 7 gives a
line of length exactly 7. -/
theorem noising_fill_line_witness :
    ((Noising.line (compressedToken "beep".data) 7).length : Int) = 7 :=
  (noising_fill_line "beep".data ⟨⟨0, 0⟩, ⟨2, 7⟩⟩ (compressedToken "beep".data)
    (by decide) (Or.inr rfl)).1

/-- C10: for every noise string (including the empty one) the expanded
token has length `len(noise) + 4` and the compressed token
`len(noise) + 1`, both non-zero, so the defensive fill-with-spaces
branch of `Noising.line` taken on an empty token is unreachable for both
variants. -/
theorem tokens_nonempty (noise : List Char) :
    (expandedToken noise).length = noise.length + 4 ∧
    (compressedToken noise).length = noise.length + 1 ∧
    ¬ (expandedToken noise).length = 0 ∧
    ¬ (compressedToken noise).length = 0 := by
  have h1 : (expandedToken noise).length = noise.length + 4 := by
    simp only [expandedToken, List.length_cons]
  have h2 : (compressedToken noise).length = noise.length + 1 := by
    simp only [compressedToken, List.length_append, List.length_cons, List.length_nil]
  refine ⟨h1, h2, ?_, ?_⟩
  · rw [h1]
    omega
  · rw [h2]
    omega

/-- C7: constructing `RemainingTime` fails with the InvalidArgument
requirement error iff the supplied remaining seconds are zero or
negative; for every strictly positive value construction succeeds. -/
theorem remaining_time_init_iff (s : Int) :
    (RemainingTime.init s = Except.ok s ↔ 0 < s) ∧
    (RemainingTime.init s =
        Except.error "Remaining seconds must be greater than zero" ↔ s ≤ 0) := by
  by_cases h : 0 < s
  · have hok : RemainingTime.init s = Except.ok s := by
      unfold RemainingTime.init require
      rw [decide_eq_true h]
      rfl
    rw [hok]
    exact ⟨⟨fun _ => h, fun _ => rfl⟩,
      ⟨fun hcon => absurd hcon (by simp), fun hle => absurd hle (by omega)⟩⟩
  · have herr : RemainingTime.init s =
        Except.error "Remaining seconds must be greater than zero" := by
      unfold RemainingTime.init require
      rw [decide_eq_false h]
      rfl
    rw [herr]
    exact ⟨⟨fun hcon => absurd hcon (by simp), fun hpos => absurd hpos h⟩,
      ⟨fun _ => by omega, fun _ => rfl⟩⟩

/-- C9: an ESC key event (`ch = 27`) polled at the top of a tick makes
the frame function return false (transition to Stopped) and perform no
drawing, regardless of the remaining time and cue state. -/
theorem frame_esc_stops (key_mouse : Int) (noise : List Char)
    (remaining_seconds : Option Int) (beep_enabled beep_due : Bool) :
    App.frame 27 key_mouse noise remaining_seconds beep_enabled beep_due =
      (false, []) := by
  unfold App.frame
  rw [if_pos (by norm_num : (27 : Int) ≠ -1 ∧ (27 : Int) = 27)]

/-- C4: `_draw_sub_in` constructs the child over the parent's offset plus
the relative offset (componentwise) with size the componentwise minimum
of the parent's and the relative sizes, for all inputs — including when
the requested relative size exceeds the parent's — and the relative
offset is never validated or clipped against the parent's bounds. -/
theorem draw_sub_in_clamp (parent rel : Rect) :
    draw_sub_in_target parent (some rel) =
      ⟨⟨parent.offset.y + rel.offset.y, parent.offset.x + rel.offset.x⟩,
       ⟨min parent.size.y rel.size.y, min parent.size.x rel.size.x⟩⟩ ∧
    (parent.size.y ≤ rel.size.y →
      (draw_sub_in_target parent (some rel)).size.y = parent.size.y) ∧
    (parent.size.x ≤ rel.size.x →
      (draw_sub_in_target parent (some rel)).size.x = parent.size.x) := by
  refine ⟨rfl, fun h => ?_, fun h => ?_⟩
  · simp [draw_sub_in_target, inner_area, min_eq_left h]
  · simp [draw_sub_in_target, inner_area, min_eq_left h]

/-- Witness for C4: a relative rect whose size exceeds the parent's and
whose offset lands outside the parent is still neither validated nor
clipped in offset, only clamped in size. -/
theorem draw_sub_in_clamp_witness :
    draw_sub_in_target ⟨⟨1, 2⟩, ⟨3, 4⟩⟩ (some ⟨⟨10, 20⟩, ⟨30, 40⟩⟩) =
      ⟨⟨11, 22⟩, ⟨3, 4⟩⟩ := by
  have h := (draw_sub_in_clamp ⟨⟨1, 2⟩, ⟨3, 4⟩⟩ ⟨⟨10, 20⟩, ⟨30, 40⟩⟩).1
  exact h.trans (by decide)

/-- C3 fails as stated: on a 1×5 element, at local column 3, a 5-char
text (longer than `cols - localCol = 2`) is truncated only to the full
width 5, so all 5 characters are written starting at column 3 and do not
fit within the element's columns. -/
theorem draw_str_overflow_cex :
    (draw_str ⟨⟨0, 0⟩, ⟨1, 5⟩⟩ 0 3 "abcde".data).writes =
      [⟨0, 3, "abcde".data⟩] ∧
    ¬ ((3 : Int) + ("abcde".data.length : Int) ≤ 5) := by decide

/-- C3 amended: for in-bounds local coordinates, `drawString` performs
exactly one write (text is never wrapped) at `offset + local`, with the
text truncated to the element's full column count `size.col` — not to
`size.col - localCol` — so the written characters are guaranteed to fit
within the element's columns only when `localCol = 0`. -/
theorem draw_str_truncation (area : Rect) (y x : Int) (s : List Char)
    (hy1 : 0 ≤ y) (hy2 : y < area.size.y) (hx1 : 0 ≤ x) (hx2 : x < area.size.x) :
    draw_str area y x s =
      ⟨[⟨area.offset.y + y, area.offset.x + x, pyTake s area.size.x⟩], none⟩ ∧
    ((pyTake s area.size.x).length : Int) ≤ area.size.x ∧
    (x = 0 → x + ((pyTake s area.size.x).length : Int) ≤ area.size.x) := by
  have hlen : ((pyTake s area.size.x).length : Int) ≤ area.size.x := by
    unfold pyTake
    rw [if_pos (by omega : (0 : Int) ≤ area.size.x)]
    simp only [List.length_take]
    omega
  exact ⟨draw_str_ok area y x s hy1 hy2 hx1 hx2, hlen, fun hx0 => by omega⟩

/-- Witness for the amended C3 at a concrete in-bounds position with a
text longer than the width. -/
theorem draw_str_truncation_witness :
    draw_str ⟨⟨2, 3⟩, ⟨4, 6⟩⟩ 1 0 "hello world".data =
      ⟨[⟨3, 3, pyTake "hello world".data 6⟩], none⟩ :=
  (draw_str_truncation ⟨⟨2, 3⟩, ⟨4, 6⟩⟩ 1 0 "hello world".data
    (by decide) (by decide) (by decide) (by decide)).1

/-- C6 fails as stated: the middle tier formats hours and minutes, so
`s = 90` renders as "00:01" (0 hours, 1 minute), not "01:30" as the
claim's example asserts. -/
theorem format_time_90_cex :
    format_time 90 = "00:01".data ∧ ¬ format_time 90 = "01:30".data := by decide

/-- C6 amended: for every strictly positive `s`, `s > 86400` gives
`"<days> days and HH:MM"` with days `s / 86400` and hours/minutes from
`s mod 86400`; `60 < s ≤ 86400` gives `"HH:MM"` with hours `s / 3600`
(no day rollover); `s ≤ 60` gives `"<s>s"`; HH and MM are zero-padded to
two digits.  In particular `s = 45` gives "45s", `s = 90` gives "00:01"
(the minute tier shows hours:minutes, discarding seconds), `s = 86400`
gives "24:00", and `s = 90000` gives "1 days and 01:00". -/
theorem format_time_spec (n : Nat) (hs : 0 < n) :
    (86400 < n → format_time (n : Int) =
        pyIntStr ((n / 86400 : Nat) : Int) ++ " days and ".data ++
        pad2 (((n % 86400) / 3600 : Nat) : Int) ++ [':'] ++
        pad2 ((((n % 86400) % 3600) / 60 : Nat) : Int)) ∧
    (60 < n → n ≤ 86400 → format_time (n : Int) =
        pad2 ((n / 3600 : Nat) : Int) ++ [':'] ++
        pad2 (((n % 3600) / 60 : Nat) : Int)) ∧
    (n ≤ 60 → format_time (n : Int) = pyIntStr (n : Int) ++ ['s']) ∧
    (format_time 45 = "45s".data ∧ format_time 90 = "00:01".data ∧
     format_time 86400 = "24:00".data ∧
     format_time 90000 = "1 days and 01:00".data) := by
  refine ⟨fun h1 => ?_, fun h2 h3 => ?_, fun h4 => ?_,
    by decide, by decide, by decide, by decide⟩
  · simp only [format_time, SECONDS_DAY, SECONDS_HOUR, SECONDS_MINUTE]
    rw [if_pos (by exact_mod_cast h1 : (86400 : Int) < (n : Int))]
    have e1 : Int.fdiv (n : Int) (86400 : Int) = ((n / 86400 : Nat) : Int) :=
      int_fdiv_coe n 86400
    have e2 : Int.fmod (n : Int) (86400 : Int) = ((n % 86400 : Nat) : Int) :=
      int_fmod_coe n 86400
    have e3 : Int.fdiv ((n % 86400 : Nat) : Int) (3600 : Int) =
        (((n % 86400) / 3600 : Nat) : Int) := int_fdiv_coe (n % 86400) 3600
    have e4 : Int.fmod ((n % 86400 : Nat) : Int) (3600 : Int) =
        (((n % 86400) % 3600 : Nat) : Int) := int_fmod_coe (n % 86400) 3600
    have e5 : Int.fdiv ((((n % 86400) % 3600) : Nat) : Int) (60 : Int) =
        ((((n % 86400) % 3600) / 60 : Nat) : Int) := int_fdiv_coe ((n % 86400) % 3600) 60
    rw [e1, e2, e3, e4, e5]
  · simp only [format_time, SECONDS_DAY, SECONDS_HOUR, SECONDS_MINUTE]
    rw [if_neg (by exact_mod_cast not_lt.mpr h3 : ¬ (86400 : Int) < (n : Int))]
    rw [if_pos (by exact_mod_cast h2 : (60 : Int) < (n : Int))]
    have e1 : Int.fdiv (n : Int) (3600 : Int) = ((n / 3600 : Nat) : Int) :=
      int_fdiv_coe n 3600
    have e2 : Int.fmod (n : Int) (3600 : Int) = ((n % 3600 : Nat) : Int) :=
      int_fmod_coe n 3600
    have e3 : Int.fdiv ((n % 3600 : Nat) : Int) (60 : Int) =
        (((n % 3600) / 60 : Nat) : Int) := int_fdiv_coe (n % 3600) 60
    rw [e1, e2, e3]
  · simp only [format_time, SECONDS_DAY, SECONDS_HOUR, SECONDS_MINUTE]
    rw [if_neg (by exact_mod_cast not_lt.mpr (by omega : n ≤ 86400) :
          ¬ (86400 : Int) < (n : Int))]
    rw [if_neg (by exact_mod_cast not_lt.mpr h4 : ¬ (60 : Int) < (n : Int))]

/-- Witness for the amended C6: the branch formulas and corrected
examples at concrete inputs. -/
theorem format_time_spec_witness :
    format_time 45 = "45s".data ∧ format_time 90 = "00:01".data ∧
    format_time 86400 = "24:00".data ∧
    format_time 90000 = "1 days and 01:00".data :=
  (format_time_spec 45 (by decide)).2.2.2

lemma inner_area_zero_offset (area : Rect) (sz : Vector2D)
    (h1 : sz.y ≤ area.size.y) (h2 : sz.x ≤ area.size.x) :
    inner_area area ⟨⟨0, 0⟩, sz⟩ = ⟨area.offset, sz⟩ := by
  simp only [inner_area, add_zero]
  rw [min_eq_right h1, min_eq_right h2]

/-- C2: for every noise text and every area with height ≥ 3, Monitor
draws a border iff height ≥ 5, and chooses the expanded filler iff
`width ≥ len(noise) + 4 + (2 if bordered else 0)`; in particular with a
border it chooses expanded iff `width ≥ len(noise) + 6`. -/
theorem monitor_border_and_filler (noise : List Char) (area : Rect)
    (rem_sec : Option Int) (h3 : 3 ≤ area.size.y) :
    contentBandOf (Monitor.subcalls area noise rem_sec) =
      some (⟨area.offset, ⟨area.size.y - 2, area.size.x⟩⟩,
            decide (5 ≤ area.size.y),
            decide ((noise.length : Int) + 4 +
              (if 5 ≤ area.size.y then 2 else 0) ≤ area.size.x)) ∧
    (5 ≤ area.size.y →
      contentBandOf (Monitor.subcalls area noise rem_sec) =
        some (⟨area.offset, ⟨area.size.y - 2, area.size.x⟩⟩, true,
              decide ((noise.length : Int) + 6 ≤ area.size.x))) := by
  have htgt := inner_area_zero_offset area ⟨area.size.y - 2, area.size.x⟩
    (by exact show area.size.y - 2 ≤ area.size.y by omega)
    (by exact show area.size.x ≤ area.size.x by omega)
  have key : contentBandOf (Monitor.subcalls area noise rem_sec) =
      some (⟨area.offset, ⟨area.size.y - 2, area.size.x⟩⟩,
            decide (5 ≤ area.size.y),
            decide ((noise.length : Int) + 4 +
              (if 5 ≤ area.size.y then 2 else 0) ≤ area.size.x)) := by
    simp only [Monitor.subcalls, NoisingExpanded.token_exceeds_width, if_pos h3, htgt,
      List.cons_append, List.singleton_append, contentBandOf, decide_eq_true_eq]
  refine ⟨key, fun h5 => ?_⟩
  rw [key, if_pos h5, decide_eq_true h5]
  have h46 : (noise.length : Int) + 4 + 2 = (noise.length : Int) + 6 := by ring
  rw [h46]

/-- Witness for C2: noise "beep" on a bordered 6×30 area selects the
expanded filler over the full-width content band. -/
theorem monitor_border_and_filler_witness :
    contentBandOf (Monitor.subcalls ⟨⟨0, 0⟩, ⟨6, 30⟩⟩ "beep".data none) =
      some (⟨⟨0, 0⟩, ⟨4, 30⟩⟩, true, true) := by
  have h := (monitor_border_and_filler "beep".data ⟨⟨0, 0⟩, ⟨6, 30⟩⟩ none
    (by decide)).1
  exact h.trans (by decide)

/-- C5: Monitor's three layout gates are independent: the content band
(rows [0, height−2) at full width) is delegated iff height ≥ 3, the
remaining-time element over the monitor's full area iff height ≥ 2 and a
remaining value is present, and the exit hint over the full area iff
height ≥ 1; in particular a height-1 area draws only the exit hint. -/
theorem monitor_gates (noise : List Char) (area : Rect) (rem_sec : Option Int) :
    ((contentBandOf (Monitor.subcalls area noise rem_sec)).map (fun p => p.1) =
      if 3 ≤ area.size.y
      then some (⟨area.offset, ⟨area.size.y - 2, area.size.x⟩⟩ : Rect)
      else none) ∧
    (remainingTimeOf (Monitor.subcalls area noise rem_sec) =
      if 2 ≤ area.size.y then rem_sec.map (fun s => (area, s)) else none) ∧
    (exitHintOf (Monitor.subcalls area noise rem_sec) =
      if 1 ≤ area.size.y then some area else none) ∧
    (area.size.y = 1 →
      Monitor.subcalls area noise rem_sec = [SubCall.exitHint area]) := by
  by_cases h3 : 3 ≤ area.size.y
  · have h2 : 2 ≤ area.size.y := by omega
    have h1 : 1 ≤ area.size.y := by omega
    have htgt := inner_area_zero_offset area ⟨area.size.y - 2, area.size.x⟩
      (by exact show area.size.y - 2 ≤ area.size.y by omega)
      (by exact show area.size.x ≤ area.size.x by omega)
    rcases rem_sec with _ | s
    · refine ⟨?_, ?_, ?_, fun hyeq => absurd hyeq (by omega)⟩ <;>
        simp [Monitor.subcalls, h3, h2, h1, htgt, contentBandOf,
          remainingTimeOf, exitHintOf]
    · refine ⟨?_, ?_, ?_, fun hyeq => absurd hyeq (by omega)⟩ <;>
        simp [Monitor.subcalls, h3, h2, h1, htgt, contentBandOf,
          remainingTimeOf, exitHintOf]
  · by_cases h2 : 2 ≤ area.size.y
    · have h1 : 1 ≤ area.size.y := by omega
      rcases rem_sec with _ | s
      · refine ⟨?_, ?_, ?_, fun hyeq => absurd hyeq (by omega)⟩ <;>
          simp [Monitor.subcalls, h3, h2, h1, contentBandOf,
            remainingTimeOf, exitHintOf]
      · refine ⟨?_, ?_, ?_, fun hyeq => absurd hyeq (by omega)⟩ <;>
          simp [Monitor.subcalls, h3, h2, h1, contentBandOf,
            remainingTimeOf, exitHintOf]
    · by_cases h1 : 1 ≤ area.size.y
      · refine ⟨?_, ?_, ?_, fun hyeq => ?_⟩ <;>
          simp [Monitor.subcalls, h3, h2, h1, contentBandOf,
            remainingTimeOf, exitHintOf]
      · refine ⟨?_, ?_, ?_, fun hyeq => absurd hyeq (by omega)⟩ <;>
          simp [Monitor.subcalls, h3, h2, h1, contentBandOf,
            remainingTimeOf, exitHintOf]

/-- Witness for C5: a height-1 area delegates only to the exit hint. -/
theorem monitor_gates_witness :
    Monitor.subcalls ⟨⟨0, 0⟩, ⟨1, 7⟩⟩ "beep".data (some 5) =
      [SubCall.exitHint ⟨⟨0, 0⟩, ⟨1, 7⟩⟩] :=
  (monitor_gates "beep".data ⟨⟨0, 0⟩, ⟨1, 7⟩⟩ (some 5)).2.2.2 (by decide)

lemma exit_hint_zero (area : Rect) (hz : area.size.y ≤ 0 ∨ area.size.x ≤ 0) :
    (ExitHint.draw area).writes = [] ∧ (ExitHint.draw area).err ≠ none := by
  unfold ExitHint.draw
  exact draw_str_zero area _ 0 _ hz

lemma remaining_run_zero (area : Rect) (s : Int)
    (hz : area.size.y ≤ 0 ∨ area.size.x ≤ 0) :
    (RemainingTime.run area s).writes = [] := by
  unfold RemainingTime.run
  cases h : RemainingTime.init s with
  | error e => rfl
  | ok v =>
    unfold RemainingTime.draw
    exact (draw_str_zero area _ 0 _ hz).1

lemma noising_zero (area : Rect) (tok : List Char)
    (hz : area.size.y ≤ 0 ∨ area.size.x ≤ 0) :
    (Noising.draw area tok).writes = [] := by
  simp only [Noising.draw]
  apply seqDraws_writes_nil
  intro r hr
  rw [List.mem_map] at hr
  obtain ⟨y, hy, rfl⟩ := hr
  exact (draw_str_zero area y 0 _ hz).1

lemma border_box_zero (area : Rect) (content : Rect → DrawResult)
    (hz : area.size.y ≤ 0 ∨ area.size.x ≤ 0) :
    (BorderBox.draw area content).writes = [] := by
  simp only [BorderBox.draw]
  apply seqDraws_writes_nil
  intro r hr
  have hcskip : ¬ (0 < area.size.y - 2 ∧ 0 < area.size.x - 2) := by omega
  rw [if_neg hcskip, List.append_nil] at hr
  rcases List.mem_append.mp hr with hr1 | hr2
  · rcases List.mem_append.mp hr1 with ha | hb
    · rw [List.mem_singleton] at ha
      subst ha
      exact (draw_str_zero area 0 0 _ hz).1
    · rw [List.mem_flatten] at hb
      obtain ⟨l, hl, hrl⟩ := hb
      rw [List.mem_map] at hl
      obtain ⟨y, hy, rfl⟩ := hl
      simp only [List.mem_cons, List.mem_singleton, List.not_mem_nil, or_false] at hrl
      rcases hrl with rfl | rfl
      · exact (draw_str_zero area y 0 _ hz).1
      · exact (draw_str_zero area y (area.size.x - 1) _ hz).1
  · rw [List.mem_singleton] at hr2
    subst hr2
    exact (draw_str_zero area (area.size.y - 1) 0 _ hz).1

lemma monitor_zero (area : Rect) (noise : List Char) (rem_sec : Option Int)
    (hz : area.size.y = 0 ∨ area.size.x = 0) :
    (Monitor.draw area noise rem_sec).writes = [] := by
  unfold Monitor.draw
  apply seqDraws_writes_nil
  intro r hr
  rw [List.mem_map] at hr
  obtain ⟨c, hc, rfl⟩ := hr
  rcases hz with hy0 | hx0
  · have g3 : ¬ 3 ≤ area.size.y := by omega
    have g2 : ¬ 2 ≤ area.size.y := by omega
    have g1 : ¬ 1 ≤ area.size.y := by omega
    simp [Monitor.subcalls, g3, g2, g1] at hc
  · simp only [Monitor.subcalls, List.mem_append] at hc
    rcases hc with (hcb | hrt) | heh
    · by_cases h3 : 3 ≤ area.size.y
      · rw [if_pos h3, List.mem_singleton] at hcb
        subst hcb
        simp only [runSubCall]
        by_cases h5 : 5 ≤ area.size.y
        · rw [decide_eq_true h5, if_pos rfl]
          exact border_box_zero _ _ (Or.inr (by simp [inner_area, hx0]))
        · rw [decide_eq_false h5, if_neg (by simp)]
          exact noising_zero _ _ (Or.inr (by simp [inner_area, hx0]))
      · rw [if_neg h3] at hcb
        exact absurd hcb (List.not_mem_nil c)
    · by_cases h2 : 2 ≤ area.size.y
      · rw [if_pos h2] at hrt
        rcases rem_sec with _ | s
        · exact absurd hrt (List.not_mem_nil c)
        · rw [List.mem_singleton] at hrt
          subst hrt
          exact remaining_run_zero area s (Or.inr (by omega))
      · rw [if_neg h2] at hrt
        exact absurd hrt (List.not_mem_nil c)
    · by_cases h1 : 1 ≤ area.size.y
      · rw [if_pos h1, List.mem_singleton] at heh
        subst heh
        exact (exit_hint_zero area (Or.inr (by omega))).1
      · rw [if_neg h1] at heh
        exact absurd heh (List.not_mem_nil c)

/-- C8 fails as stated: `ExitHint.draw` on a zero-size area writes
nothing to the surface, but it fails with the row bounds error instead
of succeeding as a no-op. -/
theorem zero_size_exit_hint_cex :
    (ExitHint.draw ⟨⟨0, 0⟩, ⟨0, 0⟩⟩).writes = [] ∧
    (ExitHint.draw ⟨⟨0, 0⟩, ⟨0, 0⟩⟩).err = some "y is out of bounds" := by decide

/-- C8 amended: for every screen element whose area has zero size in
either dimension, `draw()` writes nothing to the surface; it is not
always failure-free, however: elements that target a fixed row and
column (ExitHint, RemainingTime, and the filler on a zero-width area of
positive height) fail the coordinate bounds check, while BorderBox
swallows the failure and Monitor at height 0 issues no delegations. -/
theorem zero_size_draws_nothing (area : Rect) (noise tok : List Char)
    (rem_sec : Option Int) (s : Int) (content : Rect → DrawResult)
    (hz : area.size.y = 0 ∨ area.size.x = 0) :
    (ExitHint.draw area).writes = [] ∧
    (RemainingTime.run area s).writes = [] ∧
    (Noising.draw area tok).writes = [] ∧
    (BorderBox.draw area content).writes = [] ∧
    (Monitor.draw area noise rem_sec).writes = [] := by
  have hz' : area.size.y ≤ 0 ∨ area.size.x ≤ 0 := by omega
  exact ⟨(exit_hint_zero area hz').1, remaining_run_zero area s hz',
    noising_zero area tok hz', border_box_zero area content hz',
    monitor_zero area noise rem_sec hz⟩

/-- Witness for the amended C8: a height-4, width-0 monitor draws
nothing. -/
theorem zero_size_draws_nothing_witness :
    (Monitor.draw ⟨⟨0, 0⟩, ⟨4, 0⟩⟩ "beep".data (some 9)).writes = [] :=
  (zero_size_draws_nothing ⟨⟨0, 0⟩, ⟨4, 0⟩⟩ "beep".data "x".data (some 9) 9
    (fun _ => ⟨[], none⟩) (by decide)).2.2.2.2
